import Mathlib

/-!
Verification of the route optimization engine of `route_generator.py`
(repository `maestroanton/rotastc`).

The embedding below follows the source file closely:

* `DistanceMatrix` entries are meters/seconds as natural numbers, with the
  `float('inf')` sentinel for failed elements modelled as `⊤ : WithTop ℕ`.
* `RouteOptimizer.nearest_neighbor` is `nearest_neighbor` below: the inner
  `for j in range(n)` scan is `scanNearest`, the outer `for _ in range(n-1)`
  loop is `nnLoop`.
* `RouteOptimizer.two_opt` is `two_opt`: each `while` pass scans candidate
  pairs `(i, j)` in the source's order (`candPairs`); the first pair with
  positive gain is applied (`apply_two_opt_swap`) and the pass restarts,
  exactly as the `break` statements do.  The fuel of `twoOptLoop` is the
  source's `max_iterations` pass counter.
* The gain test `_calculate_two_opt_gain(...) > 0` is `two_opt_gain_pos`;
  `floatSubPos x y` captures the Python float comparison `(x - y) > 0` on
  `[0, ∞]` values, including `inf - inf = nan` (not greater than 0).
* `RouteGenerator.get_distance_matrix` batching is `get_distance_matrix_rows`,
  parameterised by a pointwise (mock) provider `f`; a direct provider call
  returns `providerRows`.
* `RouteGenerator.optimize_route` is `optimize_route`, parameterised by the
  outcome of the provider call (`Except`: a raised transport exception or a
  response envelope); `get_distance_matrix_result` models the `raise
  Exception(f"Erro ao obter matriz de distâncias: {str(e)}")` wrapping.
* `RouteGenerator.open_route_in_browser` / `_create_google_maps_url` chunking
  is `build_link_chunks` / `create_google_maps_chunk`, keeping the
  origin/waypoints/destination structure of each emitted link (URL rendering
  and percent-encoding are not needed by any claim).
-/

namespace RotaSTC

/-- Matrix entry domain: meters or seconds, with `⊤` for the `float('inf')`
sentinel used for elements whose status is not OK. -/
abbrev Dist := WithTop ℕ

/-! ### DistanceMatrix (response decoding) -/

/-- One element of a provider response row:
`{status, distance.value, duration.value}`. -/
structure MatrixElement where
  status : String
  distance_value : ℕ
  duration_value : ℕ
deriving DecidableEq

/-- One row of a provider response. -/
structure MatrixRow where
  elements : List MatrixElement
deriving DecidableEq

/-- Provider response envelope `{status, rows}` (address echo fields omitted:
no claim mentions them). -/
structure GoogleMatrixResponse where
  status : String
  rows : List MatrixRow
deriving DecidableEq

/-- Embeds `DistanceMatrix._build_distance_matrix`, one element: OK elements keep
`distance.value`, others become the infinity sentinel. -/
def element_distance (e : MatrixElement) : Dist :=
  if e.status = "OK" then (e.distance_value : Dist) else ⊤

/-- Embeds `DistanceMatrix._build_duration_matrix`, one element. -/
def element_duration (e : MatrixElement) : Dist :=
  if e.status = "OK" then (e.duration_value : Dist) else ⊤

/-- Embeds `DistanceMatrix._build_distance_matrix`. -/
def build_distance_matrix (resp : GoogleMatrixResponse) : List (List Dist) :=
  resp.rows.map fun r => r.elements.map element_distance

/-- Embeds `DistanceMatrix._build_duration_matrix`. -/
def build_duration_matrix (resp : GoogleMatrixResponse) : List (List Dist) :=
  resp.rows.map fun r => r.elements.map element_duration

/-- Embeds `DistanceMatrix.size`: `len(google_matrix_response['rows'])`. -/
def matrix_size (resp : GoogleMatrixResponse) : ℕ :=
  resp.rows.length

/-- Embeds `self._distance_matrix[i][j]` (in-range in every reachable call; the
defaults are never hit there). -/
def matrix_lookup (m : List (List Dist)) (i j : ℕ) : Dist :=
  (m.getD i []).getD j ⊤

/-! ### RouteOptimizer.nearest_neighbor -/

/-- The inner `for j in range(n)` scan of `nearest_neighbor`: starting from
the accumulator `(nearest, nearest_dist)` (initially `(-1, inf)`, modelled as
`(none, ⊤)`), an unvisited `j` with `dm current j < nearest_dist` replaces the
accumulator. -/
def scanNearest (dm : ℕ → ℕ → Dist) (visited : List Bool) (current : ℕ) :
    List ℕ → Option ℕ × Dist → Option ℕ × Dist
  | [], acc => acc
  | j :: rest, acc =>
    if visited.getD j false = false then
      if dm current j < acc.2 then
        scanNearest dm visited current rest (some j, dm current j)
      else
        scanNearest dm visited current rest acc
    else
      scanNearest dm visited current rest acc

/-- The outer `for _ in range(n - 1)` loop of `nearest_neighbor`: when the
scan found some nearest `j`, append it, mark it visited and move there;
when it found none (`nearest == -1`), the iteration does nothing. -/
def nnLoop (dm : ℕ → ℕ → Dist) (n : ℕ) :
    ℕ → List Bool → ℕ → List ℕ → List ℕ
  | 0, _, _, route => route
  | k + 1, visited, current, route =>
    match (scanNearest dm visited current (List.range n) (none, ⊤)).1 with
    | some j => nnLoop dm n k (visited.set j true) j (route ++ [j])
    | none => nnLoop dm n k visited current route

/-- Embeds `RouteOptimizer.nearest_neighbor` over an `n`-location matrix `dm`
(the source's default `start_idx` is 0). -/
def nearest_neighbor (dm : ℕ → ℕ → Dist) (n : ℕ) (start_idx : ℕ) : List ℕ :=
  nnLoop dm n (n - 1) ((List.replicate n false).set start_idx true) start_idx [start_idx]
    ++ [start_idx]

/-! ### RouteOptimizer.two_opt -/

/-- Python float test `(x - y) > 0` for `x y ∈ [0, ∞]`:
`inf - inf = nan` is not `> 0`; `inf - finite = inf` is; `finite - inf`
is not; finite values compare exactly. -/
def floatSubPos (x y : Dist) : Bool :=
  if y = ⊤ then false
  else if x = ⊤ then true
  else decide (y < x)

/-- Embeds `_calculate_two_opt_gain(route, i, j) > 0`:
`gain = (dist(a,b) + dist(c,d)) - (dist(a,c) + dist(b,d))` with
`a = route[i-1], b = route[i], c = route[j], d = route[j+1]`. -/
def two_opt_gain_pos (dm : ℕ → ℕ → Dist) (route : List ℕ) (i j : ℕ) : Bool :=
  let a := route.getD (i - 1) 0
  let b := route.getD i 0
  let c := route.getD j 0
  let d := route.getD (j + 1) 0
  floatSubPos (dm a b + dm c d) (dm a c + dm b d)

/-- Embeds `_apply_two_opt_swap`: `route[:i] + route[i:j+1][::-1] + route[j+1:]`. -/
def apply_two_opt_swap (route : List ℕ) (i j : ℕ) : List ℕ :=
  route.take i ++ ((route.drop i).take (j + 1 - i)).reverse ++ route.drop (j + 1)

/-- The candidate positions of one `two_opt` pass, in scan order:
`i in range(1, n-2)`, `j in range(i+1, n-1)`. -/
def candPairs (n : ℕ) : List (ℕ × ℕ) :=
  (List.range' 1 (n - 3)).flatMap fun i =>
    (List.range' (i + 1) (n - 2 - i)).map fun j => (i, j)

/-- One `two_opt` pass up to its `break`: the first candidate pair with
positive gain, if any. -/
def findSwap (dm : ℕ → ℕ → Dist) (route : List ℕ) : Option (ℕ × ℕ) :=
  (candPairs route.length).find? fun p => two_opt_gain_pos dm route p.1 p.2

/-- The `while improved and iterations < max_iterations` loop: each pass
either applies the first improving swap and restarts, or terminates. -/
def twoOptLoop (dm : ℕ → ℕ → Dist) : ℕ → List ℕ → List ℕ
  | 0, route => route
  | fuel + 1, route =>
    match findSwap dm route with
    | none => route
    | some (i, j) => twoOptLoop dm fuel (apply_two_opt_swap route i j)

/-- Embeds `RouteOptimizer.two_opt` (the source's default `max_iterations` is
1000). -/
def two_opt (dm : ℕ → ℕ → Dist) (initial_route : List ℕ)
    (max_iterations : ℕ) : List ℕ :=
  if initial_route.length < 4 then initial_route
  else twoOptLoop dm max_iterations initial_route

/-- Embeds `RouteOptimizer.calculate_route_distance`: sum of consecutive edge
weights (`⊤`-absorbing addition models `inf + x = inf`). -/
def calculate_route_distance (dm : ℕ → ℕ → Dist) : List ℕ → Dist
  | a :: b :: t => dm a b + calculate_route_distance dm (b :: t)
  | _ => 0

/-- Embeds `RouteOptimizer.calculate_route_duration` (same loop over the duration
table). -/
def calculate_route_duration (dur : ℕ → ℕ → Dist) (route : List ℕ) : Dist :=
  calculate_route_distance dur route

/-! ### RouteGenerator.get_distance_matrix (batching) -/

/-- Embeds `origins[i:i+k]` slices of the loop `for i in range(0, len(l), k)`.
The fuel `l.length` bounds the loop; with `k ≠ 0` it is never exhausted. -/
def chunkListAux {α : Type} (k : ℕ) : ℕ → List α → List (List α)
  | 0, _ => []
  | _, [] => []
  | fuel + 1, l => l.take k :: chunkListAux k fuel (l.drop k)

/-- Consecutive chunks of size `k` of a list. -/
def chunkList {α : Type} (k : ℕ) (l : List α) : List (List α) :=
  chunkListAux k l.length l

/-- Embeds `MAX_BATCH_SIZE = 10`. -/
def MAX_BATCH_SIZE : ℕ := 10

/-- Rows returned by one direct provider call on a pointwise (mock) provider
`f`: element `(i, j)` depends only on `origins[i]` and `destinations[j]`. -/
def providerRows {α γ : Type} (f : α → α → γ) (origins destinations : List α) :
    List (List γ) :=
  origins.map fun o => destinations.map (f o)

/-- The `j > 0` arm of the batch loop:
`row_data[row_idx]['elements'].extend(row['elements'])` for each row of the
new batch (rows of `row_data` beyond the new batch are kept unchanged). -/
def extendRows {γ : Type} (row_data new_rows : List (List γ)) : List (List γ) :=
  row_data.zipWith (· ++ ·) new_rows ++ row_data.drop new_rows.length

/-- The inner `for j in range(0, len(destinations), MAX_BATCH_SIZE)` loop:
the first destination batch initialises `row_data`, later batches extend the
rows in place. -/
def assembleRowData {α γ : Type} (f : α → α → γ) (origin_batch : List α) :
    List (List α) → List (List γ)
  | [] => []
  | d0 :: rest =>
    rest.foldl (fun row_data dest_batch =>
        extendRows row_data (providerRows f origin_batch dest_batch))
      (providerRows f origin_batch d0)

/-- The batched acquisition path of `get_distance_matrix`: one request per
(origin-block, destination-block) pair in row-major order, reassembled. -/
def batchedRows {α γ : Type} (f : α → α → γ) (origins destinations : List α) :
    List (List γ) :=
  (chunkList MAX_BATCH_SIZE origins).flatMap fun origin_batch =>
    assembleRowData f origin_batch (chunkList MAX_BATCH_SIZE destinations)

/-- Embeds `get_distance_matrix`: direct call when
`len(origins) * len(destinations) <= 100`, batched otherwise (only the
`rows` of the response matter to the claims). -/
def get_distance_matrix_rows {α γ : Type} (f : α → α → γ)
    (origins destinations : List α) : List (List γ) :=
  if origins.length * destinations.length ≤ 100 then
    providerRows f origins destinations
  else
    batchedRows f origins destinations

/-! ### RouteGenerator.optimize_route -/

/-- A structured address record (the fields read by
`format_address_for_api`; a missing key and an empty value are identical for
Python truthiness). -/
structure Address where
  logradouro : String
  bairro : String
  cidade : String
  estado : String
  cep : String
deriving DecidableEq, Inhabited

/-- Embeds `RouteGenerator.format_address_for_api`: join the non-empty fields with
`", "`. -/
def format_address_for_api (a : Address) : String :=
  String.intercalate ", "
    (([a.logradouro, a.bairro, a.cidade, a.estado, a.cep]).filter fun s => s != "")

/-- Embeds `self.fixed_start`. -/
def fixed_start : String := "STC Transportes, Fortaleza, CE"

/-- One entry of the final `route` list of `optimize_route`. -/
structure RouteStop where
  address : String
  is_start : Bool
  original_data : Option Address
deriving DecidableEq

/-- The dictionary returned by `optimize_route` (totals in meters/seconds;
the derived rounded km/min fields are omitted: no claim mentions them;
on the error dictionaries `route_indices` is absent, modelled as `[]`). -/
structure RouteResult where
  route : List RouteStop
  route_indices : List ℕ
  total_distance : Dist
  total_duration : Dist
  num_stops : ℕ
  error : Option String
deriving DecidableEq

/-- Embeds `get_distance_matrix`'s `except` clause: a transport failure is re-raised
as `Exception(f"Erro ao obter matriz de distâncias: {str(e)}")`. -/
def get_distance_matrix_result (transport : Except String GoogleMatrixResponse) :
    Except String GoogleMatrixResponse :=
  match transport with
  | .error msg => .error ("Erro ao obter matriz de distâncias: " ++ msg)
  | .ok r => .ok r

/-- Embeds `RouteGenerator.optimize_route`, parameterised by the outcome of the
`get_distance_matrix` call on `[fixed_start] + formatted_addresses`
(`.error e` models a raised exception caught by the `except` clause). -/
def optimize_route (provider_outcome : Except String GoogleMatrixResponse)
    (addresses : List Address) (use_two_opt : Bool) : RouteResult :=
  if addresses = [] then
    { route := [], route_indices := [], total_distance := 0, total_duration := 0,
      num_stops := 0, error := some "Nenhum endereço fornecido" }
  else
    match provider_outcome with
    | .error e =>
      { route := [], route_indices := [], total_distance := 0, total_duration := 0,
        num_stops := 0, error := some e }
    | .ok google_matrix =>
      if google_matrix.status ≠ "OK" then
        { route := [], route_indices := [], total_distance := 0, total_duration := 0,
          num_stops := 0, error := some ("Erro na API do Google: " ++ google_matrix.status) }
      else
        let formatted_addresses := addresses.map format_address_for_api
        let dmD := matrix_lookup (build_distance_matrix google_matrix)
        let dmT := matrix_lookup (build_duration_matrix google_matrix)
        let n := matrix_size google_matrix
        let route1 := nearest_neighbor dmD n 0
        let route_indices := if use_two_opt then two_opt dmD route1 1000 else route1
        let total_distance := calculate_route_distance dmD route_indices
        let total_duration := calculate_route_duration dmT route_indices
        let route := route_indices.map fun idx =>
          if idx = 0 then
            { address := fixed_start, is_start := true, original_data := none }
          else
            { address := formatted_addresses.getD (idx - 1) "", is_start := false,
              original_data := addresses[idx - 1]? }
        { route := route, route_indices := route_indices,
          total_distance := total_distance, total_duration := total_duration,
          num_stops := addresses.length, error := none }

/-! ### open_route_in_browser / _create_google_maps_url (link chunks) -/

/-- Embeds `MAX_WAYPOINTS = 9`. -/
def MAX_WAYPOINTS : ℕ := 9

/-- The origin / waypoints / destination triple one emitted Google-Maps URL
is built from. -/
structure LinkChunk where
  origin : String
  waypoints : List String
  destination : String
deriving DecidableEq

/-- Embeds `_create_google_maps_url` (the triple it renders): the first chunk starts
at the fixed depot, later chunks at the previous chunk's last address; the
last chunk ends at the depot, earlier chunks end at their own last waypoint,
which is removed from their waypoint list. -/
def create_google_maps_chunk (addresses : List String)
    (is_first is_last : Bool) (prev_chunk_last : Option String) : LinkChunk :=
  let origin := if is_first then fixed_start else prev_chunk_last.getD ""
  if is_last then
    { origin := origin, waypoints := addresses, destination := fixed_start }
  else
    { origin := origin, waypoints := addresses.dropLast,
      destination := addresses.getLastD "" }

/-- The chunk-splitting logic of `open_route_in_browser` on the formatted
address list (one chunk when it fits, else size-9 chunks with boundary
continuity). -/
def build_link_chunks (formatted_addresses : List String) : List LinkChunk :=
  if formatted_addresses.length > MAX_WAYPOINTS then
    let chunks := chunkList MAX_WAYPOINTS formatted_addresses
    (List.range chunks.length).map fun idx =>
      create_google_maps_chunk (chunks.getD idx []) (idx == 0)
        (idx == chunks.length - 1)
        (if 0 < idx then some ((chunks.getD (idx - 1) []).getLastD "") else none)
  else
    [create_google_maps_chunk formatted_addresses true true none]

/-! ### Concrete instances used by counterexamples and witnesses -/

/-- A 4-location all-finite but asymmetric distance matrix. -/
def dmAsym : ℕ → ℕ → Dist := fun i j =>
  match i, j with
  | 0, 1 => 10 | 1, 0 => 2000
  | 0, 2 => 1 | 2, 0 => 2000
  | 0, 3 => 1 | 3, 0 => 1
  | 1, 2 => 1 | 2, 1 => 1000
  | 1, 3 => 1 | 3, 1 => 1
  | 2, 3 => 10 | 3, 2 => 1
  | _, _ => 0

/-- A 2-location matrix whose off-diagonal entry carries the infinity
sentinel (an unreachable pair, as produced by a non-OK element). -/
def dmInf : ℕ → ℕ → Dist := fun _ _ => ⊤

/-- The symmetric 4-node example matrix of the spec (§8). -/
def dmEx : ℕ → ℕ → Dist := fun i j =>
  match i, j with
  | 0, 1 => 10 | 1, 0 => 10
  | 0, 2 => 50 | 2, 0 => 50
  | 0, 3 => 20 | 3, 0 => 20
  | 1, 2 => 15 | 2, 1 => 15
  | 1, 3 => 35 | 3, 1 => 35
  | 2, 3 => 25 | 3, 2 => 25
  | _, _ => 0

/-- Eleven formatted stop strings. -/
def sample_stops : List String :=
  ["s01", "s02", "s03", "s04", "s05", "s06", "s07", "s08", "s09", "s10", "s11"]

/-- An all-finite matrix given by a ℕ-valued table. -/
def natDM (g : ℕ → ℕ → ℕ) : ℕ → ℕ → Dist := fun i j => (g i j : Dist)

/-- Naturals-valued total of `calculate_route_distance` for all-finite matrices. -/
def natChain (g : ℕ → ℕ → ℕ) : List ℕ → ℕ
  | a :: b :: t => g a b + natChain g (b :: t)
  | _ => 0

/-! ## General helper lemmas -/

theorem getD_eq_getElem? {α : Type} (l : List α) (i : ℕ) (d : α) :
    l.getD i d = l[i]?.getD d := by
  simp [List.getD_eq_getD_get?, List.get?_eq_getElem?]

theorem getD_map_range {β : Type} (m : ℕ) (g : ℕ → β) (x : ℕ) (d : β) (hx : x < m) :
    ((List.range m).map g).getD x d = g x := by
  rw [getD_eq_getElem?, List.getElem?_map, List.getElem?_range hx]
  rfl

theorem string_append_ne_empty (s t : String) (hs : s ≠ "") : s ++ t ≠ "" := by
  intro h
  have hl : (s ++ t).length = 0 := by rw [h]; rfl
  rw [String.length_append] at hl
  apply hs
  have hd : s.length = 0 := by omega
  have hnil : s.data = [] := List.length_eq_zero.mp hd
  cases s with
  | mk d => simp_all

/-! ## Claim C8: empty address list short-circuits -/

/-- C8: on an empty address list, `optimize_route` returns the explicit
"Nenhum endereço fornecido" result with empty route and zero totals, and the
result does not depend on the provider at all (no provider call is made). -/
theorem optimize_route_empty_addresses (p q : Except String GoogleMatrixResponse)
    (u v : Bool) :
    optimize_route p [] u =
      { route := [], route_indices := [], total_distance := 0, total_duration := 0,
        num_stops := 0, error := some "Nenhum endereço fornecido" } ∧
    optimize_route p [] u = optimize_route q [] v := by
  exact ⟨rfl, rfl⟩

/-! ## Claim C4: provider failures surface as structured errors -/

/-- C4: whenever the provider call raises a transport failure or returns a
top-level status other than "OK", `optimize_route` returns a result whose
error is a non-empty string, whose route is empty, and whose totals are zero
(the model is a total function: no exception propagates). -/
theorem optimize_route_provider_failure (addresses : List Address) (u : Bool)
    (tr : Except String GoogleMatrixResponse) (hne : addresses ≠ [])
    (hbad : (∃ m, tr = .error m) ∨ ∃ r, tr = .ok r ∧ r.status ≠ "OK") :
    ∃ e, (optimize_route (get_distance_matrix_result tr) addresses u).error = some e ∧
      e ≠ "" ∧
      (optimize_route (get_distance_matrix_result tr) addresses u).route = [] ∧
      (optimize_route (get_distance_matrix_result tr) addresses u).total_distance = 0 ∧
      (optimize_route (get_distance_matrix_result tr) addresses u).total_duration = 0 := by
  rcases hbad with ⟨m, rfl⟩ | ⟨r, rfl, hst⟩
  · refine ⟨"Erro ao obter matriz de distâncias: " ++ m, ?_, ?_, ?_, ?_, ?_⟩ <;>
      simp [optimize_route, get_distance_matrix_result, hne,
        string_append_ne_empty "Erro ao obter matriz de distâncias: " m (by decide)]
  · refine ⟨"Erro na API do Google: " ++ r.status, ?_, ?_, ?_, ?_, ?_⟩ <;>
      simp [optimize_route, get_distance_matrix_result, hne, hst,
        string_append_ne_empty "Erro na API do Google: " r.status (by decide)]

/-- Witness for C4 at the spec's own example: a top-level
"OVER_QUERY_LIMIT" status. -/
theorem optimize_route_provider_failure_witness :
    ∃ e, (optimize_route
        (get_distance_matrix_result (.ok ⟨"OVER_QUERY_LIMIT", []⟩))
        [⟨"Rua A", "", "", "", ""⟩] true).error = some e ∧ e ≠ "" ∧
      (optimize_route (get_distance_matrix_result (.ok ⟨"OVER_QUERY_LIMIT", []⟩))
        [⟨"Rua A", "", "", "", ""⟩] true).route = [] ∧
      (optimize_route (get_distance_matrix_result (.ok ⟨"OVER_QUERY_LIMIT", []⟩))
        [⟨"Rua A", "", "", "", ""⟩] true).total_distance = 0 ∧
      (optimize_route (get_distance_matrix_result (.ok ⟨"OVER_QUERY_LIMIT", []⟩))
        [⟨"Rua A", "", "", "", ""⟩] true).total_duration = 0 :=
  optimize_route_provider_failure [⟨"Rua A", "", "", "", ""⟩] true
    (.ok ⟨"OVER_QUERY_LIMIT", []⟩) (by decide)
    (Or.inr ⟨⟨"OVER_QUERY_LIMIT", []⟩, rfl, by decide⟩)

/-! ## Claim C2: batched acquisition equals a single direct call -/

theorem chunkListAux_flatten {α : Type} (k : ℕ) (hk : k ≠ 0) :
    ∀ (fuel : ℕ) (l : List α), l.length ≤ fuel →
      (chunkListAux k fuel l).flatMap id = l := by
  intro fuel
  induction fuel with
  | zero =>
    intro l hl
    rw [List.length_eq_zero.mp (Nat.le_zero.mp hl)]
    rfl
  | succ m ih =>
    intro l hl
    cases l with
    | nil => rfl
    | cons a t =>
      show (List.take k (a :: t) :: chunkListAux k m (List.drop k (a :: t))).flatMap id
          = a :: t
      rw [List.flatMap_cons, ih (List.drop k (a :: t)) ?_]
      · exact List.take_append_drop k (a :: t)
      · have hdl : (List.drop k (a :: t)).length = (a :: t).length - k := List.length_drop k _
        have hk1 : 1 ≤ k := Nat.one_le_iff_ne_zero.mpr hk
        rw [hdl]
        simp only [List.length_cons] at hl ⊢
        omega

theorem chunkList_flatten {α : Type} (k : ℕ) (hk : k ≠ 0) (l : List α) :
    (chunkList k l).flatMap id = l :=
  chunkListAux_flatten k hk l.length l le_rfl

theorem chunkList_ne_nil {α : Type} (k : ℕ) (l : List α) (hl : l ≠ []) :
    chunkList k l ≠ [] := by
  cases l with
  | nil => exact absurd rfl hl
  | cons a t => exact fun h => List.noConfusion h

theorem extendRows_cons {γ : Type} (A B : List γ) (As Bs : List (List γ)) :
    extendRows (A :: As) (B :: Bs) = (A ++ B) :: extendRows As Bs := by
  simp [extendRows]

theorem providerRows_append {α γ : Type} (f : α → α → γ) (ob : List α)
    (d1 d2 : List α) :
    providerRows f ob (d1 ++ d2) = extendRows (providerRows f ob d1) (providerRows f ob d2) := by
  induction ob with
  | nil => rfl
  | cons o t ih =>
    show (d1 ++ d2).map (f o) :: providerRows f t (d1 ++ d2) = _
    rw [ih, List.map_append]
    exact (extendRows_cons (d1.map (f o)) (d2.map (f o)) _ _).symm

theorem assemble_foldl {α γ : Type} (f : α → α → γ) (ob : List α)
    (rest : List (List α)) (acc : List α) :
    rest.foldl (fun row_data dest_batch =>
        extendRows row_data (providerRows f ob dest_batch))
      (providerRows f ob acc)
      = providerRows f ob (acc ++ rest.flatMap id) := by
  induction rest generalizing acc with
  | nil => simp
  | cons d t ih =>
    simp only [List.foldl_cons, List.flatMap_cons, id]
    rw [← providerRows_append, ih, List.append_assoc]

theorem assembleRowData_eq {α γ : Type} (f : α → α → γ) (ob : List α)
    (dchunks : List (List α)) (hne : dchunks ≠ []) :
    assembleRowData f ob dchunks = providerRows f ob (dchunks.flatMap id) := by
  cases dchunks with
  | nil => exact absurd rfl hne
  | cons d t =>
    show t.foldl _ (providerRows f ob d) = _
    rw [assemble_foldl f ob t d, List.flatMap_cons]
    rfl

theorem flatMap_providerRows {α γ : Type} (f : α → α → γ) (chunks : List (List α))
    (dests : List α) :
    (chunks.flatMap fun ob => providerRows f ob dests)
      = providerRows f (chunks.flatMap id) dests := by
  induction chunks with
  | nil => rfl
  | cons a t ih =>
    simp only [List.flatMap_cons, id]
    rw [ih]
    unfold providerRows
    rw [List.map_append]

/-- C2: for every location list with `N * N > 100`, the batched acquisition
path (10×10 blocks in row-major order, reassembled) produces exactly the
rows a single direct call on the same list would produce, for every
pointwise provider. -/
theorem batched_matches_direct {α γ : Type} (f : α → α → γ) (locations : List α)
    (hcap : 100 < locations.length * locations.length) :
    batchedRows f locations locations = providerRows f locations locations := by
  have hd : locations ≠ [] := by
    intro h
    rw [h] at hcap
    simp at hcap
  have hch : chunkList MAX_BATCH_SIZE locations ≠ [] :=
    chunkList_ne_nil MAX_BATCH_SIZE locations hd
  unfold batchedRows
  have h1 : ∀ ob, assembleRowData f ob (chunkList MAX_BATCH_SIZE locations)
      = providerRows f ob locations := by
    intro ob
    rw [assembleRowData_eq f ob _ hch, chunkList_flatten MAX_BATCH_SIZE (by decide)]
  calc (chunkList MAX_BATCH_SIZE locations).flatMap
        (fun ob => assembleRowData f ob (chunkList MAX_BATCH_SIZE locations))
      = (chunkList MAX_BATCH_SIZE locations).flatMap
          (fun ob => providerRows f ob locations) := by
        exact List.flatMap_congr fun ob _ => h1 ob
    _ = providerRows f ((chunkList MAX_BATCH_SIZE locations).flatMap id) locations :=
        flatMap_providerRows f _ locations
    _ = providerRows f locations locations := by
        rw [chunkList_flatten MAX_BATCH_SIZE (by decide)]

/-- Witness for C2 on 11 locations (121 elements > 100). -/
theorem batched_matches_direct_witness :
    100 < (List.range 11).length * (List.range 11).length ∧
    batchedRows (fun a b => 100 * a + b) (List.range 11) (List.range 11) =
      providerRows (fun a b => 100 * a + b) (List.range 11) (List.range 11) :=
  ⟨by decide, batched_matches_direct (fun a b => 100 * a + b) (List.range 11) (by decide)⟩

/-! ## Claim C5: 11 stops, waypoint cap 9, exactly two link chunks -/

/-- C5: on 11 stops with `MAX_WAYPOINTS = 9`, the builder forms exactly two
chunks; chunk 1 consists of the first 9 waypoints, starts at the depot, and
its last waypoint (stop 9) is emitted as its destination; chunk 2 begins at
stop 9, contains the remaining 2 stops, and ends at the depot. -/
theorem link_chunks_eleven_stops :
    chunkList MAX_WAYPOINTS sample_stops =
      [["s01", "s02", "s03", "s04", "s05", "s06", "s07", "s08", "s09"],
       ["s10", "s11"]] ∧
    build_link_chunks sample_stops =
      [{ origin := fixed_start,
         waypoints := ["s01", "s02", "s03", "s04", "s05", "s06", "s07", "s08"],
         destination := "s09" },
       { origin := "s09", waypoints := ["s10", "s11"], destination := fixed_start }] := by
  exact ⟨by decide, by decide⟩

/-! ## Claim C6: boundary continuity of consecutive link chunks -/

/-- C6: whenever the stop list exceeds the waypoint cap, the destination of
each non-final link chunk equals the origin of the following chunk. -/
theorem link_chunks_continuity (stops : List String)
    (hlen : MAX_WAYPOINTS < stops.length) (k : ℕ)
    (hk : k + 1 < (build_link_chunks stops).length) :
    ((build_link_chunks stops).getD k ⟨"", [], ""⟩).destination =
      ((build_link_chunks stops).getD (k + 1) ⟨"", [], ""⟩).origin := by
  have hif : build_link_chunks stops =
      (List.range (chunkList MAX_WAYPOINTS stops).length).map fun idx =>
        create_google_maps_chunk ((chunkList MAX_WAYPOINTS stops).getD idx [])
          (idx == 0) (idx == (chunkList MAX_WAYPOINTS stops).length - 1)
          (if 0 < idx then
            some (((chunkList MAX_WAYPOINTS stops).getD (idx - 1) []).getLastD "")
          else none) := by
    unfold build_link_chunks
    rw [if_pos hlen]
  rw [hif] at hk ⊢
  rw [List.length_map, List.length_range] at hk
  rw [getD_map_range _ _ k _ (by omega), getD_map_range _ _ (k + 1) _ hk]
  have hkne : (k == (chunkList MAX_WAYPOINTS stops).length - 1) = false := by
    simp only [beq_eq_false_iff_ne, ne_eq]
    omega
  have hk1ne : (k + 1 == 0) = false := by simp
  unfold create_google_maps_chunk
  rw [hkne, hk1ne]
  simp
  split <;> rfl

/-- Witness for C6 at 11 stops, first chunk boundary. -/
theorem link_chunks_continuity_witness :
    MAX_WAYPOINTS < sample_stops.length ∧
    0 + 1 < (build_link_chunks sample_stops).length ∧
    ((build_link_chunks sample_stops).getD 0 ⟨"", [], ""⟩).destination =
      ((build_link_chunks sample_stops).getD (0 + 1) ⟨"", [], ""⟩).origin :=
  ⟨by decide, by decide, link_chunks_continuity sample_stops (by decide) 0 (by decide)⟩

/-! ## Claim C7: two_opt is idempotent at convergence -/

theorem two_opt_fixed_of_converged (dm : ℕ → ℕ → Dist) (r : List ℕ)
    (h : findSwap dm r = none) (fuel : ℕ) : two_opt dm r fuel = r := by
  unfold two_opt
  split
  · rfl
  · cases fuel with
    | zero => rfl
    | succ m => simp [twoOptLoop, h]

/-- C7: when `two_opt` terminated because a full pass found no improving
pair (its output `r` satisfies `findSwap dm r = none`), running `two_opt`
again on that output, with any iteration budget, returns the identical route
with identical total distance. -/
theorem two_opt_idempotent_at_convergence (dm : ℕ → ℕ → Dist) (route : List ℕ)
    (fuel fuel' : ℕ) (hconv : findSwap dm (two_opt dm route fuel) = none) :
    two_opt dm (two_opt dm route fuel) fuel' = two_opt dm route fuel ∧
    calculate_route_distance dm (two_opt dm (two_opt dm route fuel) fuel') =
      calculate_route_distance dm (two_opt dm route fuel) := by
  have h := two_opt_fixed_of_converged dm _ hconv fuel'
  exact ⟨h, by rw [h]⟩

/-- Witness for C7 on the spec's symmetric 4-node example, where the
nearest-neighbor tour is already 2-opt optimal. -/
theorem two_opt_idempotent_at_convergence_witness :
    findSwap dmEx (two_opt dmEx [0, 1, 2, 3, 0] 1000) = none ∧
    (two_opt dmEx (two_opt dmEx [0, 1, 2, 3, 0] 1000) 1000 =
        two_opt dmEx [0, 1, 2, 3, 0] 1000 ∧
      calculate_route_distance dmEx (two_opt dmEx (two_opt dmEx [0, 1, 2, 3, 0] 1000) 1000) =
        calculate_route_distance dmEx (two_opt dmEx [0, 1, 2, 3, 0] 1000)) :=
  ⟨by decide, two_opt_idempotent_at_convergence dmEx [0, 1, 2, 3, 0] 1000 1000 (by decide)⟩

/-! ## Claim C3, counterexample: asymmetric finite matrices -/

/-- C3 counterexample: on the all-finite but asymmetric matrix `dmAsym`, the
boundary-edge gain formula accepts a swap whose reversed interior edge is far
more expensive, so `two_opt` strictly increases the total distance of the
route `[0, 1, 2, 3, 0]` (from 22 to 1003 meters). -/
theorem two_opt_worsens_asymmetric_route :
    (∀ i, i < 4 → ∀ j, j < 4 → dmAsym i j ≠ ⊤) ∧
    calculate_route_distance dmAsym [0, 1, 2, 3, 0] <
      calculate_route_distance dmAsym (two_opt dmAsym [0, 1, 2, 3, 0] 1000) := by
  exact ⟨by decide, by decide⟩

/-! ## Claim C1, counterexample: the infinity sentinel breaks completeness -/

/-- C1 counterexample: on the 2-node matrix whose entries carry the
infinity sentinel (unreachable pairs), `nearest_neighbor` never finds a
nearest unvisited node (`inf < inf` is false), so it returns `[0, 0]` of
length 2 instead of a tour of length N + 1 = 3. -/
theorem nearest_neighbor_short_on_infinite_matrix :
    nearest_neighbor dmInf 2 0 = [0, 0] ∧
    (nearest_neighbor dmInf 2 0).length ≠ 2 + 1 := by
  exact ⟨by decide, by decide⟩

/-! ## Claim C9: two_opt touches only interior positions -/

theorem head?_append_left {α : Type} (l m : List α) (h : l ≠ []) :
    (l ++ m).head? = l.head? := by
  cases l with
  | nil => exact absurd rfl h
  | cons a t => rfl

theorem head?_take {α : Type} (i : ℕ) (hi : 1 ≤ i) (l : List α) :
    (l.take i).head? = l.head? := by
  cases l with
  | nil => simp
  | cons a t =>
    cases i with
    | zero => omega
    | succ m => rfl

theorem take_ne_nil_of_pos {α : Type} (i : ℕ) (hi : 1 ≤ i) (l : List α) (hl : l ≠ []) :
    l.take i ≠ [] := by
  cases l with
  | nil => exact absurd rfl hl
  | cons a t =>
    cases i with
    | zero => omega
    | succ m => exact fun h => List.noConfusion h

theorem getLast?_append_right {α : Type} (l m : List α) (h : m ≠ []) :
    (l ++ m).getLast? = m.getLast? := by
  rw [List.getLast?_append]
  cases hm : m.getLast? with
  | none => exact absurd (List.getLast?_eq_none_iff.mp hm) h
  | some a => rfl

theorem drop_ne_nil_of_lt {α : Type} (l : List α) (j : ℕ) (h : j < l.length) :
    l.drop j ≠ [] := by
  intro hn
  have := congrArg List.length hn
  rw [List.length_drop] at this
  simp at this
  omega

theorem getLast?_drop_of_lt {α : Type} (l : List α) (j : ℕ) (h : j < l.length) :
    (l.drop j).getLast? = l.getLast? := by
  have h2 := @List.getLast?_append _ (l.take j) (l.drop j)
  rw [List.take_append_drop] at h2
  rw [h2]
  cases hm : (l.drop j).getLast? with
  | none => exact absurd (List.getLast?_eq_none_iff.mp hm) (drop_ne_nil_of_lt l j h)
  | some a => rfl

theorem candPairs_mem (n i j : ℕ) (h : (i, j) ∈ candPairs n) :
    1 ≤ i ∧ i + 1 ≤ j ∧ j + 1 < n ∧ 4 ≤ n := by
  unfold candPairs at h
  rw [List.mem_flatMap] at h
  obtain ⟨i', hi', hj⟩ := h
  rw [List.mem_map] at hj
  obtain ⟨j', hj', hpair⟩ := hj
  have h1 : i' = i := congrArg Prod.fst hpair
  have h2 : j' = j := congrArg Prod.snd hpair
  subst h1
  subst h2
  rw [List.mem_range'_1] at hi' hj'
  omega

theorem swap_decomp (route : List ℕ) (i j : ℕ) (hij : i ≤ j) (_hj : j + 1 ≤ route.length) :
    route = route.take i ++ ((route.drop i).take (j + 1 - i) ++ route.drop (j + 1)) := by
  have h2 : (route.drop i).drop (j + 1 - i) = route.drop (j + 1) := by
    rw [List.drop_drop]
    congr 1
    omega
  conv_lhs => rw [← List.take_append_drop i route, ← List.take_append_drop (j + 1 - i) (route.drop i)]
  rw [h2]

theorem apply_two_opt_swap_perm (route : List ℕ) (i j : ℕ) (hij : i ≤ j)
    (hj : j + 1 ≤ route.length) :
    List.Perm (apply_two_opt_swap route i j) route := by
  conv_rhs => rw [swap_decomp route i j hij hj]
  unfold apply_two_opt_swap
  rw [List.append_assoc]
  exact List.Perm.append_left _
    (List.Perm.append (List.reverse_perm _) (List.Perm.refl _))

theorem apply_two_opt_swap_head? (route : List ℕ) (i j : ℕ) (hi : 1 ≤ i) :
    (apply_two_opt_swap route i j).head? = route.head? := by
  unfold apply_two_opt_swap
  cases hr : route with
  | nil => simp
  | cons a t =>
    rw [← hr, List.append_assoc,
      head?_append_left _ _ (take_ne_nil_of_pos i hi route (by rw [hr]; exact fun h => List.noConfusion h)),
      head?_take i hi]

theorem apply_two_opt_swap_getLast? (route : List ℕ) (i j : ℕ) (hj : j + 1 < route.length) :
    (apply_two_opt_swap route i j).getLast? = route.getLast? := by
  unfold apply_two_opt_swap
  rw [getLast?_append_right _ _ (drop_ne_nil_of_lt route (j + 1) hj)]
  exact getLast?_drop_of_lt route (j + 1) hj

theorem findSwap_bounds (dm : ℕ → ℕ → Dist) (route : List ℕ) (i j : ℕ)
    (h : findSwap dm route = some (i, j)) :
    1 ≤ i ∧ i + 1 ≤ j ∧ j + 1 < route.length ∧ 4 ≤ route.length :=
  candPairs_mem route.length i j (List.mem_of_find?_eq_some h)

theorem twoOptLoop_head? (dm : ℕ → ℕ → Dist) (fuel : ℕ) (route : List ℕ) :
    (twoOptLoop dm fuel route).head? = route.head? := by
  induction fuel generalizing route with
  | zero => rfl
  | succ m ih =>
    show (match findSwap dm route with
      | none => route
      | some (i, j) => twoOptLoop dm m (apply_two_opt_swap route i j)).head? = route.head?
    cases h : findSwap dm route with
    | none => rfl
    | some p =>
      obtain ⟨i, j⟩ := p
      obtain ⟨hi, _, _, _⟩ := findSwap_bounds dm route i j h
      rw [ih (apply_two_opt_swap route i j), apply_two_opt_swap_head? route i j hi]

theorem twoOptLoop_getLast? (dm : ℕ → ℕ → Dist) (fuel : ℕ) (route : List ℕ) :
    (twoOptLoop dm fuel route).getLast? = route.getLast? := by
  induction fuel generalizing route with
  | zero => rfl
  | succ m ih =>
    show (match findSwap dm route with
      | none => route
      | some (i, j) => twoOptLoop dm m (apply_two_opt_swap route i j)).getLast? = route.getLast?
    cases h : findSwap dm route with
    | none => rfl
    | some p =>
      obtain ⟨i, j⟩ := p
      obtain ⟨_, _, hj, _⟩ := findSwap_bounds dm route i j h
      rw [ih (apply_two_opt_swap route i j), apply_two_opt_swap_getLast? route i j hj]

theorem twoOptLoop_perm (dm : ℕ → ℕ → Dist) (fuel : ℕ) (route : List ℕ) :
    List.Perm (twoOptLoop dm fuel route) route := by
  induction fuel generalizing route with
  | zero => exact List.Perm.refl route
  | succ m ih =>
    show List.Perm (match findSwap dm route with
      | none => route
      | some (i, j) => twoOptLoop dm m (apply_two_opt_swap route i j)) route
    cases h : findSwap dm route with
    | none => exact List.Perm.refl route
    | some p =>
      obtain ⟨i, j⟩ := p
      obtain ⟨_, hij, hj, _⟩ := findSwap_bounds dm route i j h
      exact (ih (apply_two_opt_swap route i j)).trans
        (apply_two_opt_swap_perm route i j (by omega) (by omega))

/-- C9: for every input route (and any iteration budget), `two_opt`
preserves the first element, the last element, and the multiset of elements
of the route: its output is a rearrangement touching only interior
positions. -/
theorem two_opt_preserves_endpoints_and_multiset (dm : ℕ → ℕ → Dist)
    (route : List ℕ) (fuel : ℕ) :
    (two_opt dm route fuel).head? = route.head? ∧
    (two_opt dm route fuel).getLast? = route.getLast? ∧
    List.Perm (two_opt dm route fuel) route := by
  unfold two_opt
  split
  · exact ⟨rfl, rfl, List.Perm.refl route⟩
  · exact ⟨twoOptLoop_head? dm fuel route, twoOptLoop_getLast? dm fuel route,
      twoOptLoop_perm dm fuel route⟩

/-! ## Claim C1: nearest_neighbor builds a complete closed tour -/

theorem scanNearest_some_of_some (dm : ℕ → ℕ → Dist) (visited : List Bool) (current : ℕ)
    (js : List ℕ) (acc : Option ℕ × Dist) (j0 : ℕ) (h : acc.1 = some j0) :
    ∃ j', (scanNearest dm visited current js acc).1 = some j' := by
  induction js generalizing acc j0 with
  | nil => exact ⟨j0, h⟩
  | cons j rest ih =>
    unfold scanNearest
    split
    · split
      · exact ih (some j, dm current j) j rfl
      · exact ih acc j0 h
    · exact ih acc j0 h

theorem scanNearest_some_mem (dm : ℕ → ℕ → Dist) (visited : List Bool) (current : ℕ)
    (js : List ℕ) (acc : Option ℕ × Dist) (j' : ℕ)
    (h : (scanNearest dm visited current js acc).1 = some j') :
    acc.1 = some j' ∨ (j' ∈ js ∧ visited.getD j' false = false) := by
  induction js generalizing acc with
  | nil => exact Or.inl h
  | cons j rest ih =>
    unfold scanNearest at h
    by_cases h1 : visited.getD j false = false
    · rw [if_pos h1] at h
      by_cases h2 : dm current j < acc.2
      · rw [if_pos h2] at h
        rcases ih (some j, dm current j) h with h3 | h3
        · have hjj : j = j' := Option.some.inj h3
          subst hjj
          exact Or.inr ⟨List.mem_cons_self j rest, h1⟩
        · exact Or.inr ⟨List.mem_cons_of_mem j h3.1, h3.2⟩
      · rw [if_neg h2] at h
        rcases ih acc h with h3 | h3
        · exact Or.inl h3
        · exact Or.inr ⟨List.mem_cons_of_mem j h3.1, h3.2⟩
    · rw [if_neg h1] at h
      rcases ih acc h with h3 | h3
      · exact Or.inl h3
      · exact Or.inr ⟨List.mem_cons_of_mem j h3.1, h3.2⟩

theorem scanNearest_none (dm : ℕ → ℕ → Dist) (visited : List Bool) (current : ℕ)
    (js : List ℕ) (acc : Option ℕ × Dist)
    (hinv : acc.1 = none → acc.2 = ⊤)
    (h : (scanNearest dm visited current js acc).1 = none) :
    acc.1 = none ∧ ∀ j ∈ js, visited.getD j false = false → dm current j = ⊤ := by
  induction js generalizing acc with
  | nil => exact ⟨h, fun j hj => absurd hj (List.not_mem_nil j)⟩
  | cons j rest ih =>
    unfold scanNearest at h
    by_cases h1 : visited.getD j false = false
    · rw [if_pos h1] at h
      by_cases h2 : dm current j < acc.2
      · rw [if_pos h2] at h
        obtain ⟨j', hj'⟩ :=
          scanNearest_some_of_some dm visited current rest (some j, dm current j) j rfl
        rw [h] at hj'
        exact Option.noConfusion hj'
      · rw [if_neg h2] at h
        obtain ⟨hnone, hrest⟩ := ih acc hinv h
        have hacc2 : acc.2 = ⊤ := hinv hnone
        rw [hacc2] at h2
        have htop : dm current j = ⊤ := by
          by_contra hne
          exact h2 (lt_top_iff_ne_top.mpr hne)
        refine ⟨hnone, ?_⟩
        intro x hx hvx
        rcases List.mem_cons.mp hx with rfl | hx'
        · exact htop
        · exact hrest x hx' hvx
    · rw [if_neg h1] at h
      obtain ⟨hnone, hrest⟩ := ih acc hinv h
      refine ⟨hnone, ?_⟩
      intro x hx hvx
      rcases List.mem_cons.mp hx with rfl | hx'
      · exact absurd hvx h1
      · exact hrest x hx' hvx

theorem scanNearest_finds (dm : ℕ → ℕ → Dist) (visited : List Bool) (current : ℕ) (n : ℕ)
    (hfin : ∀ j, j < n → dm current j ≠ ⊤)
    (hex : ∃ j, j < n ∧ visited.getD j false = false) :
    ∃ j', (scanNearest dm visited current (List.range n) (none, ⊤)).1 = some j' ∧
      j' < n ∧ visited.getD j' false = false := by
  cases h : (scanNearest dm visited current (List.range n) (none, ⊤)).1 with
  | none =>
    obtain ⟨-, hall⟩ :=
      scanNearest_none dm visited current (List.range n) (none, ⊤) (fun _ => rfl) h
    obtain ⟨j, hj, hv⟩ := hex
    exact absurd (hall j (List.mem_range.mpr hj) hv) (hfin j hj)
  | some j' =>
    rcases scanNearest_some_mem dm visited current _ _ j' h with h3 | h3
    · exact Option.noConfusion h3
    · exact ⟨j', rfl, List.mem_range.mp h3.1, h3.2⟩

theorem getD_set_bool (l : List Bool) (j : ℕ) (b : Bool) (hj : j < l.length) (x : ℕ) :
    (l.set j b).getD x false = if x = j then b else l.getD x false := by
  by_cases hx : x = j
  · subst hx
    rw [if_pos rfl, getD_eq_getElem?]
    have h : (l.set x b)[x]? = some b := by simp [List.getElem?_set_self, hj]
    rw [h]
    rfl
  · rw [if_neg hx, getD_eq_getElem?, getD_eq_getElem?, List.getElem?_set_ne (Ne.symm hx)]

theorem getD_replicate_false (n x : ℕ) : (List.replicate n false).getD x false = false := by
  rw [getD_eq_getElem?]
  cases h : (List.replicate n false)[x]? with
  | none => rfl
  | some b =>
    have hb : b = false := List.eq_of_mem_replicate (List.getElem?_mem h)
    subst hb
    rfl

theorem exists_unvisited (n : ℕ) (visited : List Bool) (route : List ℕ)
    (_hnodup : route.Nodup)
    (hmem : ∀ x, x ∈ route ↔ (x < n ∧ visited.getD x false = true))
    (hlt : route.length < n) :
    ∃ j, j < n ∧ visited.getD j false = false := by
  by_contra hno
  push_neg at hno
  have hsub : List.range n ⊆ route := by
    intro x hx
    rw [List.mem_range] at hx
    rw [hmem]
    refine ⟨hx, ?_⟩
    cases hv : visited.getD x false
    · exact absurd hv (hno x hx)
    · rfl
  have hle := ((List.nodup_range n).subperm hsub).length_le
  rw [List.length_range] at hle
  omega

theorem nnLoop_append (dm : ℕ → ℕ → Dist) (n : ℕ) :
    ∀ (k : ℕ) (visited : List Bool) (current : ℕ) (route : List ℕ),
      ∃ ext, nnLoop dm n k visited current route = route ++ ext := by
  intro k
  induction k with
  | zero => exact fun visited current route => ⟨[], (List.append_nil route).symm⟩
  | succ m ih =>
    intro visited current route
    unfold nnLoop
    cases h : (scanNearest dm visited current (List.range n) (none, ⊤)).1 with
    | none => exact ih visited current route
    | some j =>
      obtain ⟨ext, hext⟩ := ih (visited.set j true) j (route ++ [j])
      refine ⟨j :: ext, ?_⟩
      show nnLoop dm n m (visited.set j true) j (route ++ [j]) = route ++ j :: ext
      rw [hext, List.append_assoc]
      rfl

theorem nnLoop_spec (dm : ℕ → ℕ → Dist) (n : ℕ)
    (hfin : ∀ i, i < n → ∀ j, j < n → dm i j ≠ ⊤) :
    ∀ (k : ℕ) (visited : List Bool) (current : ℕ) (route : List ℕ),
      visited.length = n → current < n → route.Nodup →
      (∀ x, x ∈ route ↔ (x < n ∧ visited.getD x false = true)) →
      route.length + k = n →
      (nnLoop dm n k visited current route).Nodup ∧
      (∀ x, x ∈ nnLoop dm n k visited current route ↔ x < n) ∧
      (nnLoop dm n k visited current route).length = n := by
  intro k
  induction k with
  | zero =>
    intro visited current route _ _ hnodup hmem hcount
    have hlen : route.length = n := by omega
    have hsub : route ⊆ List.range n := by
      intro x hx
      exact List.mem_range.mpr ((hmem x).mp hx).1
    have hperm : List.Perm route (List.range n) :=
      (hnodup.subperm hsub).perm_of_length_le (by rw [List.length_range, hlen])
    refine ⟨hnodup, ?_, hlen⟩
    intro x
    rw [show nnLoop dm n 0 visited current route = route from rfl]
    rw [hperm.mem_iff, List.mem_range]
  | succ m ih =>
    intro visited current route hlen hcur hnodup hmem hcount
    have hlt : route.length < n := by omega
    obtain ⟨j', hscan, hj'n, hj'unvis⟩ := scanNearest_finds dm visited current n
      (fun j hj => hfin current hcur j hj)
      (exists_unvisited n visited route hnodup hmem hlt)
    have hnotmem : j' ∉ route := by
      intro hj'
      have := ((hmem j').mp hj').2
      rw [hj'unvis] at this
      exact Bool.noConfusion this
    unfold nnLoop
    rw [hscan]
    apply ih (visited.set j' true) j' (route ++ [j'])
    · rw [List.length_set]
      exact hlen
    · exact hj'n
    · rw [List.nodup_append]
      exact ⟨hnodup, List.nodup_singleton j', by
        intro a ha hb
        rw [List.mem_singleton] at hb
        subst hb
        exact hnotmem ha⟩
    · intro x
      rw [List.mem_append, List.mem_singleton,
        getD_set_bool visited j' true (by omega) x]
      by_cases hx : x = j'
      · subst hx
        rw [if_pos rfl]
        simp [hj'n]
      · rw [if_neg hx]
        rw [hmem x]
        simp [hx]
    · rw [List.length_append]
      simp
      omega

/-- C1 (amended: all matrix entries finite): for every `n ≥ 1` and
`start_idx < n`, `nearest_neighbor` returns a route of length `n + 1` whose
first and last elements both equal `start_idx`, and whose interior positions
visit every other index exactly once (they are a permutation of
`{0..n-1} \ {start_idx}`). -/
theorem nearest_neighbor_complete_tour (dm : ℕ → ℕ → Dist) (n start_idx : ℕ)
    (hn : 1 ≤ n) (hs : start_idx < n)
    (hfin : ∀ i, i < n → ∀ j, j < n → dm i j ≠ ⊤) :
    (nearest_neighbor dm n start_idx).length = n + 1 ∧
    (nearest_neighbor dm n start_idx).head? = some start_idx ∧
    (nearest_neighbor dm n start_idx).getLast? = some start_idx ∧
    List.Perm (((nearest_neighbor dm n start_idx).drop 1).dropLast)
      ((List.range n).filter fun x => x != start_idx) := by
  have hvlen : ((List.replicate n false).set start_idx true).length = n := by
    rw [List.length_set, List.length_replicate]
  have hmem0 : ∀ x, x ∈ [start_idx] ↔
      (x < n ∧ ((List.replicate n false).set start_idx true).getD x false = true) := by
    intro x
    rw [List.mem_singleton, getD_set_bool _ _ _ (by rw [List.length_replicate]; exact hs) x]
    by_cases hx : x = start_idx
    · subst hx
      simp [hs]
    · rw [if_neg hx, getD_replicate_false]
      simp [hx]
  obtain ⟨hnodup, hmem, hlen⟩ := nnLoop_spec dm n hfin (n - 1)
    ((List.replicate n false).set start_idx true) start_idx [start_idx]
    hvlen hs (List.nodup_singleton start_idx) hmem0 (by simp; omega)
  obtain ⟨ext, hext⟩ := nnLoop_append dm n (n - 1)
    ((List.replicate n false).set start_idx true) start_idx [start_idx]
  set inner := nnLoop dm n (n - 1)
    ((List.replicate n false).set start_idx true) start_idx [start_idx] with hinner
  have hinner_cons : inner = start_idx :: ext := hext
  have hinner_ne : inner ≠ [] := by
    rw [hinner_cons]
    exact fun h => List.noConfusion h
  have hnn : nearest_neighbor dm n start_idx = inner ++ [start_idx] := rfl
  refine ⟨?_, ?_, ?_, ?_⟩
  · rw [hnn, List.length_append, hlen]
    rfl
  · rw [hnn, head?_append_left inner [start_idx] hinner_ne, hinner_cons]
    rfl
  · rw [hnn, getLast?_append_right inner [start_idx] (fun h => List.noConfusion h)]
    rfl
  · have hdrop : (nearest_neighbor dm n start_idx).drop 1 = ext ++ [start_idx] := by
      rw [hnn, hinner_cons]
      rfl
    rw [hdrop, List.dropLast_concat]
    have hextnodup : ext.Nodup := by
      have := hnodup
      rw [hinner_cons] at this
      exact this.of_cons
    have hstart_not : start_idx ∉ ext := by
      have := hnodup
      rw [hinner_cons, List.nodup_cons] at this
      exact this.1
    have hextmem : ∀ x, x ∈ ext ↔ (x < n ∧ x ≠ start_idx) := by
      intro x
      constructor
      · intro hx
        refine ⟨(hmem x).mp ?_, ?_⟩
        · rw [hinner_cons]
          exact List.mem_cons_of_mem _ hx
        · intro hxs
          subst hxs
          exact hstart_not hx
      · intro ⟨hxn, hxs⟩
        have hx : x ∈ inner := (hmem x).mpr hxn
        rw [hinner_cons, List.mem_cons] at hx
        rcases hx with rfl | hx
        · exact absurd rfl hxs
        · exact hx
    apply (List.perm_ext_iff_of_nodup hextnodup ((List.nodup_range n).filter _)).mpr
    intro a
    rw [hextmem a, List.mem_filter, List.mem_range]
    simp

/-- Witness for the C1 theorem on a 3-node all-finite matrix. -/
theorem nearest_neighbor_complete_tour_witness :
    (1 ≤ 3 ∧ 0 < 3 ∧ ∀ i, i < 3 → ∀ j, j < 3 → natDM (fun _ _ => 1) i j ≠ ⊤) ∧
    ((nearest_neighbor (natDM fun _ _ => 1) 3 0).length = 3 + 1 ∧
      (nearest_neighbor (natDM fun _ _ => 1) 3 0).head? = some 0 ∧
      (nearest_neighbor (natDM fun _ _ => 1) 3 0).getLast? = some 0 ∧
      List.Perm (((nearest_neighbor (natDM fun _ _ => 1) 3 0).drop 1).dropLast)
        ((List.range 3).filter fun x => x != 0)) :=
  ⟨⟨by decide, by decide, by decide⟩,
    nearest_neighbor_complete_tour (natDM fun _ _ => 1) 3 0 (by decide) (by decide) (by decide)⟩

/-! ## Claim C3, amended: monotone non-regression on symmetric finite matrices -/

theorem headD_eq_head? {α : Type} (l : List α) (d : α) : l.headD d = l.head?.getD d := by
  cases l <;> rfl

theorem calc_natDM (g : ℕ → ℕ → ℕ) (r : List ℕ) :
    calculate_route_distance (natDM g) r = (natChain g r : Dist) := by
  induction r with
  | nil => rfl
  | cons a t ih =>
    cases t with
    | nil => rfl
    | cons b t' =>
      show natDM g a b + calculate_route_distance (natDM g) (b :: t') = _
      rw [ih]
      show ((g a b : ℕ) : Dist) + ((natChain g (b :: t') : ℕ) : Dist) = _
      rw [show natChain g (a :: b :: t') = g a b + natChain g (b :: t') from rfl, Nat.cast_add]

theorem getLastD_cons_cons (a b : ℕ) (l : List ℕ) (d : ℕ) :
    (a :: b :: l).getLastD d = (b :: l).getLastD d := by
  simp [List.getLastD_eq_getLast?, List.getLast?_cons_cons]

theorem natChain_append (g : ℕ → ℕ → ℕ) :
    ∀ (A B : List ℕ), A ≠ [] → B ≠ [] →
      natChain g (A ++ B) = natChain g A + g (A.getLastD 0) (B.headD 0) + natChain g B := by
  intro A
  induction A with
  | nil => exact fun B hA _ => absurd rfl hA
  | cons a A' ihA =>
    intro B _ hB
    cases A' with
    | nil =>
      cases B with
      | nil => exact absurd rfl hB
      | cons b t =>
        show natChain g (a :: b :: t) = natChain g [a] + g a b + natChain g (b :: t)
        show g a b + natChain g (b :: t) = 0 + g a b + natChain g (b :: t)
        omega
    | cons a' A'' =>
      have hcons : (a :: a' :: A'') ++ B = a :: ((a' :: A'') ++ B) := rfl
      rw [hcons]
      show g a a' + natChain g ((a' :: A'') ++ B) = _
      rw [ihA B (fun h => List.noConfusion h) hB]
      rw [show natChain g (a :: a' :: A'') = g a a' + natChain g (a' :: A'') from rfl]
      rw [getLastD_cons_cons a a' A'' 0]
      omega

theorem reverse_headD (l : List ℕ) (d : ℕ) : l.reverse.headD d = l.getLastD d := by
  rw [headD_eq_head?, List.head?_reverse, List.getLastD_eq_getLast?]

theorem reverse_getLastD (l : List ℕ) (d : ℕ) : l.reverse.getLastD d = l.headD d := by
  rw [List.getLastD_eq_getLast?, List.getLast?_reverse, headD_eq_head?]

theorem natChain_reverse (g : ℕ → ℕ → ℕ) (hsym : ∀ i j, g i j = g j i) :
    ∀ l : List ℕ, natChain g l.reverse = natChain g l := by
  intro l
  induction l with
  | nil => rfl
  | cons a t ih =>
    cases t with
    | nil => rfl
    | cons b t' =>
      rw [List.reverse_cons]
      rw [natChain_append g ((b :: t').reverse) [a]
        (by rw [ne_eq, List.reverse_eq_nil_iff]; exact fun h => List.noConfusion h)
        (fun h => List.noConfusion h)]
      rw [ih, reverse_getLastD]
      show natChain g (b :: t') + g ((b :: t').headD 0) a + natChain g [a]
          = natChain g (a :: b :: t')
      show natChain g (b :: t') + g b a + 0 = g a b + natChain g (b :: t')
      rw [hsym b a]
      omega

theorem take_getLastD (l : List ℕ) (i : ℕ) (hi1 : 1 ≤ i) (hi2 : i ≤ l.length) :
    (l.take i).getLastD 0 = l.getD (i - 1) 0 := by
  rw [List.getLastD_eq_getLast?, List.getLast?_eq_getElem? (l.take i), getD_eq_getElem?]
  rw [List.length_take_of_le hi2]
  rw [List.getElem?_take]
  have h : i - 1 < i := by omega
  simp [h]

theorem seg_headD (l : List ℕ) (i m : ℕ) (hm : 1 ≤ m) :
    ((l.drop i).take m).headD 0 = l.getD i 0 := by
  rw [headD_eq_head?, head?_take m hm, List.head?_drop, getD_eq_getElem?]

theorem seg_getLastD (l : List ℕ) (i j : ℕ) (hij : i ≤ j) (hj : j < l.length) :
    ((l.drop i).take (j + 1 - i)).getLastD 0 = l.getD j 0 := by
  have hlen : ((l.drop i).take (j + 1 - i)).length = j + 1 - i := by
    rw [List.length_take, List.length_drop]
    omega
  rw [List.getLastD_eq_getLast?, List.getLast?_eq_getElem? ((l.drop i).take (j + 1 - i)),
    getD_eq_getElem?, hlen]
  rw [List.getElem?_take]
  have h : j + 1 - i - 1 < j + 1 - i := by omega
  rw [if_pos h, List.getElem?_drop]
  have h2 : i + (j + 1 - i - 1) = j := by omega
  rw [h2]

theorem dropD_headD (l : List ℕ) (k : ℕ) : (l.drop k).headD 0 = l.getD k 0 := by
  rw [headD_eq_head?, List.head?_drop, getD_eq_getElem?]

theorem floatSubPos_natCast (u v : ℕ) :
    floatSubPos (u : Dist) (v : Dist) = decide ((v : Dist) < (u : Dist)) := by
  have h1 : ((v : ℕ) : Dist) ≠ ⊤ := WithTop.coe_ne_top
  have h2 : ((u : ℕ) : Dist) ≠ ⊤ := WithTop.coe_ne_top
  unfold floatSubPos
  rw [if_neg h1, if_neg h2]

theorem gain_pos_natDM (g : ℕ → ℕ → ℕ) (route : List ℕ) (i j : ℕ)
    (h : two_opt_gain_pos (natDM g) route i j = true) :
    g (route.getD (i - 1) 0) (route.getD j 0) + g (route.getD i 0) (route.getD (j + 1) 0) <
      g (route.getD (i - 1) 0) (route.getD i 0) + g (route.getD j 0) (route.getD (j + 1) 0) := by
  unfold two_opt_gain_pos at h
  simp only [natDM, ← Nat.cast_add] at h
  rw [floatSubPos_natCast] at h
  have hlt := of_decide_eq_true h
  exact_mod_cast hlt

theorem natChain_swap_le (g : ℕ → ℕ → ℕ) (hsym : ∀ i j, g i j = g j i)
    (route : List ℕ) (i j : ℕ)
    (h1 : 1 ≤ i) (hij : i + 1 ≤ j) (hj : j + 1 < route.length)
    (hgain : two_opt_gain_pos (natDM g) route i j = true) :
    natChain g (apply_two_opt_swap route i j) ≤ natChain g route := by
  have hrne : route ≠ [] := by
    intro h
    rw [h] at hj
    simp at hj
  have hA : route.take i ≠ [] := take_ne_nil_of_pos i h1 route hrne
  have hXlen : ((route.drop i).take (j + 1 - i)).length = j + 1 - i := by
    rw [List.length_take, List.length_drop]
    omega
  have hX : (route.drop i).take (j + 1 - i) ≠ [] := by
    intro h
    rw [h] at hXlen
    simp at hXlen
    omega
  have hT : route.drop (j + 1) ≠ [] := drop_ne_nil_of_lt route (j + 1) hj
  have hrev : ((route.drop i).take (j + 1 - i)).reverse ≠ [] := by
    rw [ne_eq, List.reverse_eq_nil_iff]
    exact hX
  have hXT : (route.drop i).take (j + 1 - i) ++ route.drop (j + 1) ≠ [] := by
    intro h
    exact hX (List.append_eq_nil.mp h).1
  have hrevT : ((route.drop i).take (j + 1 - i)).reverse ++ route.drop (j + 1) ≠ [] := by
    intro h
    exact hrev (List.append_eq_nil.mp h).1
  have e1 : natChain g route =
      natChain g (route.take i)
        + g ((route.take i).getLastD 0)
            (((route.drop i).take (j + 1 - i) ++ route.drop (j + 1)).headD 0)
        + natChain g ((route.drop i).take (j + 1 - i) ++ route.drop (j + 1)) := by
    conv_lhs => rw [swap_decomp route i j (by omega) (by omega)]
    exact natChain_append g _ _ hA hXT
  have e2 : natChain g ((route.drop i).take (j + 1 - i) ++ route.drop (j + 1)) =
      natChain g ((route.drop i).take (j + 1 - i))
        + g (((route.drop i).take (j + 1 - i)).getLastD 0) ((route.drop (j + 1)).headD 0)
        + natChain g (route.drop (j + 1)) :=
    natChain_append g _ _ hX hT
  have e3 : (((route.drop i).take (j + 1 - i)) ++ route.drop (j + 1)).headD 0 =
      ((route.drop i).take (j + 1 - i)).headD 0 := by
    rw [headD_eq_head?, headD_eq_head?, head?_append_left _ _ hX]
  have e4 : natChain g (apply_two_opt_swap route i j) =
      natChain g (route.take i)
        + g ((route.take i).getLastD 0)
            ((((route.drop i).take (j + 1 - i)).reverse ++ route.drop (j + 1)).headD 0)
        + natChain g (((route.drop i).take (j + 1 - i)).reverse ++ route.drop (j + 1)) := by
    rw [show apply_two_opt_swap route i j = route.take i ++
        (((route.drop i).take (j + 1 - i)).reverse ++ route.drop (j + 1)) from by
      unfold apply_two_opt_swap
      rw [List.append_assoc]]
    exact natChain_append g _ _ hA hrevT
  have e5 : natChain g (((route.drop i).take (j + 1 - i)).reverse ++ route.drop (j + 1)) =
      natChain g ((route.drop i).take (j + 1 - i)).reverse
        + g ((((route.drop i).take (j + 1 - i)).reverse).getLastD 0)
            ((route.drop (j + 1)).headD 0)
        + natChain g (route.drop (j + 1)) :=
    natChain_append g _ _ hrev hT
  have e6 : ((((route.drop i).take (j + 1 - i)).reverse) ++ route.drop (j + 1)).headD 0 =
      ((route.drop i).take (j + 1 - i)).getLastD 0 := by
    rw [headD_eq_head?, head?_append_left _ _ hrev, ← headD_eq_head?, reverse_headD]
  have e7 : natChain g ((route.drop i).take (j + 1 - i)).reverse =
      natChain g ((route.drop i).take (j + 1 - i)) :=
    natChain_reverse g hsym _
  have e8 : (((route.drop i).take (j + 1 - i)).reverse).getLastD 0 =
      ((route.drop i).take (j + 1 - i)).headD 0 :=
    reverse_getLastD _ 0
  have p1 : (route.take i).getLastD 0 = route.getD (i - 1) 0 :=
    take_getLastD route i h1 (by omega)
  have p2 : ((route.drop i).take (j + 1 - i)).headD 0 = route.getD i 0 :=
    seg_headD route i (j + 1 - i) (by omega)
  have p3 : ((route.drop i).take (j + 1 - i)).getLastD 0 = route.getD j 0 :=
    seg_getLastD route i j (by omega) (by omega)
  have p4 : (route.drop (j + 1)).headD 0 = route.getD (j + 1) 0 :=
    dropD_headD route (j + 1)
  have hg := gain_pos_natDM g route i j hgain
  rw [e2, e3, p1, p2, p3, p4] at e1
  rw [e5, e6, e7, e8, p1, p2, p3, p4] at e4
  rw [e1, e4]
  omega

theorem twoOptLoop_natChain_le (g : ℕ → ℕ → ℕ) (hsym : ∀ i j, g i j = g j i)
    (fuel : ℕ) : ∀ route : List ℕ,
      natChain g (twoOptLoop (natDM g) fuel route) ≤ natChain g route := by
  induction fuel with
  | zero => exact fun route => le_refl _
  | succ m ih =>
    intro route
    show natChain g (match findSwap (natDM g) route with
      | none => route
      | some (i, j) => twoOptLoop (natDM g) m (apply_two_opt_swap route i j)) ≤ _
    cases h : findSwap (natDM g) route with
    | none => exact le_refl _
    | some p =>
      obtain ⟨i, j⟩ := p
      obtain ⟨h1, hij, hj, -⟩ := findSwap_bounds (natDM g) route i j h
      have hgain0 := List.find?_some
        (show List.find? (fun p => two_opt_gain_pos (natDM g) route p.1 p.2)
          (candPairs route.length) = some (i, j) from h)
      have hgain : two_opt_gain_pos (natDM g) route i j = true := hgain0
      exact le_trans (ih (apply_two_opt_swap route i j))
        (natChain_swap_le g hsym route i j h1 hij hj hgain)

/-- C3 (amended: the matrix must additionally be symmetric): on a symmetric
matrix with all finite weights, the total distance of `two_opt route` is
less than or equal to the total distance of `route`, for any iteration
budget; in particular `two_opt` never makes the `nearest_neighbor` tour
worse on such matrices. -/
theorem two_opt_nonincreasing_symmetric (g : ℕ → ℕ → ℕ)
    (hsym : ∀ i j, g i j = g j i) (route : List ℕ) (max_iterations : ℕ) :
    calculate_route_distance (natDM g) (two_opt (natDM g) route max_iterations) ≤
      calculate_route_distance (natDM g) route := by
  unfold two_opt
  split
  · exact le_refl _
  · rw [calc_natDM, calc_natDM]
    exact_mod_cast twoOptLoop_natChain_le g hsym max_iterations route

/-- Witness for the amended C3 on a symmetric finite matrix. -/
theorem two_opt_nonincreasing_symmetric_witness :
    calculate_route_distance (natDM fun i j => i + j)
        (two_opt (natDM fun i j => i + j) [0, 1, 2, 3, 0] 1000) ≤
      calculate_route_distance (natDM fun i j => i + j) [0, 1, 2, 3, 0] :=
  two_opt_nonincreasing_symmetric (fun i j => i + j)
    (fun i j => Nat.add_comm i j) [0, 1, 2, 3, 0] 1000

end RotaSTC
